import Mathlib

/-!
Verification of the review-analytics core of the `gamereviewgitHub` repository.

The Python sources under `src/` (a Streamlit dashboard) contain a small pure
analytics core: robust list-field parsing, keyword consolidation, semantic
version parsing and ordering, cluster aggregation with sentinel exclusion,
score coercion, and an update-impact comparator.  This file gives a shallow
embedding of those functions in Lean and proves (or refutes) the specified
properties about them.

Modelling conventions:
* Python strings are Lean `String`s (lists of characters); `str.strip()` is
  modelled by `pyStrip`, which drops `Char.isWhitespace` characters from both
  ends (Python strips a slightly larger Unicode whitespace set; the difference
  is irrelevant to every property proved here).
* Floating-point arithmetic is modelled with `ℚ`; `round(x, 2)` is modelled by
  exact round-half-to-even at two decimal places (`pyRound2`).
* `ast.literal_eval` is modelled by `literalEvalList`, a parser for flat
  Python list literals of quoted strings without escape sequences; any other
  literal is treated as a parse failure.  In the two call sites embedded here
  a non-list or failed parse lead to the same observable behaviour, so the
  restriction is noted where it matters.
* Machine integers and timestamps are `ℕ`/`ℤ`/`ℚ`; pandas timestamps are
  modelled as integers (only their ordering is used).
-/

/-! ### Generic list helpers -/

/-- Characters Python's `str.strip` removes (modelled by `Char.isWhitespace`). -/
def wsChar (c : Char) : Bool := c.isWhitespace

theorem length_dropWhile_le (p : α → Bool) (l : List α) :
    (l.dropWhile p).length ≤ l.length := by
  induction l with
  | nil => simp
  | cons c t ih => rw [List.dropWhile_cons]; split; { exact Nat.le_succ_of_le ih }; simp

theorem dropWhile_idem (p : α → Bool) (l : List α) :
    (l.dropWhile p).dropWhile p = l.dropWhile p := by
  induction l with
  | nil => simp
  | cons c t ih =>
    rw [List.dropWhile_cons]
    split
    · exact ih
    · rw [List.dropWhile_cons]; simp_all

theorem concat_inj_last {l₁ l₂ : List α} {a b : α} (h : l₁ ++ [a] = l₂ ++ [b]) : a = b := by
  have := congrArg List.reverse h
  simp at this
  exact this.1

/-! ### `str.strip` : stripping whitespace from both ends -/

/-- Drop whitespace from both ends of a character list, as `str.strip()` does. -/
def stripChars (l : List Char) : List Char :=
  ((l.dropWhile wsChar).reverse.dropWhile wsChar).reverse

/-- `str.strip` on strings. -/
def pyStrip (s : String) : String := ⟨stripChars s.data⟩

/-- A list that starts with a non-whitespace character is untouched by a
left-strip; form used for re-stripping already stripped lists. -/
theorem dropWhile_eq_self_of_head {l : List Char} (h : (l.dropWhile wsChar) = l) :
    l.dropWhile wsChar = l := h

theorem head_not_ws_of_dropWhile_eq {c : Char} {t : List Char}
    (h : (c :: t).dropWhile wsChar = c :: t) : wsChar c = false := by
  by_contra hb
  have hc : wsChar c = true := by revert hb; cases wsChar c <;> simp
  rw [List.dropWhile_cons, if_pos hc] at h
  have := length_dropWhile_le wsChar t
  have := congrArg List.length h
  simp at this
  omega

/-- Right-stripping preserves the absence of leading whitespace. -/
theorem rightStrip_noLead {l : List Char} (h : l.dropWhile wsChar = l) :
    ((l.reverse.dropWhile wsChar).reverse).dropWhile wsChar =
      (l.reverse.dropWhile wsChar).reverse := by
  cases l with
  | nil => simp
  | cons c t =>
    have hc : wsChar c = false := head_not_ws_of_dropWhile_eq h
    rcases List.eq_nil_or_concat ((c :: t).reverse.dropWhile wsChar) with hD | ⟨D', d, hD⟩
    · rw [hD]; simp
    · have hsuff : (c :: t).reverse.dropWhile wsChar <:+ (c :: t).reverse :=
        List.dropWhile_suffix wsChar
      rcases hsuff with ⟨pre, hpre⟩
      rw [hD] at hpre
      have hrev : (c :: t).reverse = t.reverse ++ [c] := by simp
      rw [hrev] at hpre
      have : d = c := by
        have : (pre ++ D') ++ [d] = t.reverse ++ [c] := by
          simpa [List.concat_eq_append, List.append_assoc] using hpre
        exact concat_inj_last this
      subst this
      rw [hD]
      simp only [List.concat_eq_append, List.reverse_append, List.reverse_cons,
        List.reverse_nil, List.nil_append, List.singleton_append]
      rw [List.dropWhile_cons, if_neg (by simp [hc])]

/-- Strings with no leading and no trailing whitespace are fixed by `stripChars`. -/
theorem stripChars_eq_self {l : List Char}
    (h1 : l.dropWhile wsChar = l) (h2 : l.reverse.dropWhile wsChar = l.reverse) :
    stripChars l = l := by
  unfold stripChars
  rw [h1, h2, List.reverse_reverse]

theorem stripChars_idem (l : List Char) : stripChars (stripChars l) = stripChars l := by
  have hA : (l.dropWhile wsChar).dropWhile wsChar = l.dropWhile wsChar := dropWhile_idem _ _
  have h1 : (stripChars l).dropWhile wsChar = stripChars l := by
    unfold stripChars
    exact rightStrip_noLead hA
  have h2 : (stripChars l).reverse.dropWhile wsChar = (stripChars l).reverse := by
    unfold stripChars
    rw [List.reverse_reverse]
    exact dropWhile_idem _ _
  exact stripChars_eq_self h1 h2

theorem pyStrip_idem (s : String) : pyStrip (pyStrip s) = pyStrip s := by
  unfold pyStrip
  exact congrArg String.mk (stripChars_idem s.data)

theorem pyStrip_data (s : String) : (pyStrip s).data = stripChars s.data := rfl

theorem stripChars_cons_space (l : List Char) : stripChars (' ' :: l) = stripChars l := by
  unfold stripChars
  rw [List.dropWhile_cons, if_pos (by decide)]

/-! ### Record Normalizer: robust list-field parsing
(`robust_eval_list`, src/pages/1_📊_Overview.py lines 66-84) -/

/-- A raw cell value for a list-valued column: missing (`NaN`), a string, or a
native Python list of strings. -/
inductive PyVal where
  | none : PyVal
  | str : String → PyVal
  | list : List String → PyVal
deriving DecidableEq

/-- `str.split(",")`: split a character list at every comma; `[[]]` on empty
input, matching Python's `"".split(",") == [""]`. -/
def splitComma : List Char → List (List Char)
  | [] => [[]]
  | c :: rest =>
    if c = ',' then [] :: splitComma rest
    else
      match splitComma rest with
      | s :: ss => (c :: s) :: ss
      | [] => [[c]]

/-- Characters removed by the fallback heuristic:
`val.replace("[","").replace("]","").replace("'","").replace('"',"")`. -/
def notBQ (c : Char) : Bool := !(c = '[' ∨ c = ']' ∨ c = '\'' ∨ c = '"')

/-- Tier-3 fallback of `robust_eval_list`:
`[x.strip() for x in cleaned.split(",") if x.strip()]`. -/
def fallbackSplit (s : String) : List String :=
  ((splitComma (s.data.filter notBQ)).map (fun piece => (⟨stripChars piece⟩ : String))).filter
    (fun x => x ≠ "")

/-- Parse one quoted Python string literal (no escape sequences): the model of
the atoms `ast.literal_eval` sees inside a list literal.  A backslash makes the
parse fail (Python would interpret an escape sequence, which this model treats
as an unsupported literal). -/
def parseQuoted : List Char → Option (String × List Char)
  | [] => Option.none
  | q :: rest =>
    if q = '\'' ∨ q = '"' then
      match rest.dropWhile (fun c => ¬(c = q ∨ c = '\\')) with
      | c :: rest2 =>
        if c = q then some (⟨rest.takeWhile (fun c => ¬(c = q ∨ c = '\\'))⟩, rest2)
        else Option.none
      | [] => Option.none
    else Option.none

/-- Parse the items of a list literal after the opening bracket: quoted strings
separated by commas, closed by `]` at the very end of the input.  `fuel` bounds
the number of items (the caller passes the input length, always sufficient). -/
def parseItems : ℕ → List Char → Option (List String)
  | 0, _ => Option.none
  | fuel + 1, l =>
    match parseQuoted (l.dropWhile wsChar) with
    | Option.none => Option.none
    | some (s, rest) =>
      if rest.dropWhile wsChar = [']'] then some [s]
      else
        match rest.dropWhile wsChar with
        | c :: rest2 =>
          if c = ',' then
            match parseItems fuel rest2 with
            | some ss => some (s :: ss)
            | Option.none => Option.none
          else Option.none
        | [] => Option.none

/-- Model of `ast.literal_eval` restricted to flat list literals of quoted
strings; every other Python literal is treated as a parse failure (`none`),
which in `robust_eval_list` has the same effect as a raised `ValueError`. -/
def literalEvalList (s : String) : Option (List String) :=
  match s.data with
  | '[' :: rest =>
    if rest.dropWhile wsChar = [']'] then some []
    else parseItems (rest.length + 1) rest
  | _ => Option.none

/-- The string branch of `robust_eval_list` (src/pages/1_📊_Overview.py lines
71-83), which never raises: empty gives `[]`, bracketed strings go through the
structured parse with a fall-through to the comma-split heuristic, and
everything else goes straight to the heuristic. -/
def robust_eval_str (s0 : String) : List String :=
  if s0 = "" then []
  else if pyStrip s0 = "[]" then []
  else if (pyStrip s0).data.head? = some '[' ∧ (pyStrip s0).data.getLast? = some ']' then
    match literalEvalList (pyStrip s0) with
    | some l => l
    | Option.none => fallbackSplit (pyStrip s0)
  else fallbackSplit (pyStrip s0)

/-- `robust_eval_list` from src/pages/1_📊_Overview.py lines 66-84.  The result
is an `Option`: `Option.none` models a raised `ValueError`.  The guard
`if pd.isna(val) or val == "":` runs before the `isinstance(val, list)` branch;
for a native list `pd.isna` returns an element-wise boolean ndarray and `or`
forces its truth value, which raises `ValueError` for an array of two or more
elements — so only lists of at most one element ever reach the pass-through
return.  (A one-element array truth-tests as its element; numpy accepts an
empty array's truth test as `False` in the versions this app runs under.)
Scalar `NaN` and the empty string give `[]`; string inputs never raise. -/
def robust_eval_list : PyVal → Option (List String)
  | PyVal.none => some []
  | PyVal.list [] => some []
  | PyVal.list [x] => some [x]
  | PyVal.list (_ :: _ :: _) => Option.none
  | PyVal.str s0 => some (robust_eval_str s0)

/-! #### Spec-side encoders for the three encodings of one logical list -/

/-- One token as a single-quoted Python string literal. -/
def quoteTok (x : String) : List Char := '\'' :: x.data ++ ['\'']

/-- Body of the serialized list literal, after the opening bracket. -/
def serInner : List String → List Char
  | [] => [']']
  | [x] => quoteTok x ++ [']']
  | x :: xs => quoteTok x ++ (',' :: ' ' :: serInner xs)

/-- The serialized-list-literal encoding of a keyword list, e.g. `['a', 'b']`. -/
def serializeListLiteral (xs : List String) : String := ⟨'[' :: serInner xs⟩

/-- Character list of the comma-delimited encoding (`", ".join(xs)`). -/
def interComma : List String → List Char
  | [] => []
  | [x] => x.data
  | x :: xs => x.data ++ (',' :: ' ' :: interComma xs)

/-- The comma-delimited (bracketless) encoding of a keyword list, e.g. `a, b`. -/
def commaDelimited (xs : List String) : String := ⟨interComma xs⟩

/-- A well-formed keyword token: nonempty, already stripped, and free of the
delimiter/quoting characters that the three encodings use. -/
def CleanToken (x : String) : Prop :=
  x ≠ "" ∧ pyStrip x = x ∧
    ∀ c ∈ x.data, ¬(c = ',' ∨ c = '[' ∨ c = ']' ∨ c = '\'' ∨ c = '"' ∨ c = '\\')

instance : DecidablePred CleanToken := fun x => by
  unfold CleanToken; infer_instance

/-! ### Keyword Consolidator
(`normalize_kw_display`, src/pages/1_📊_Overview.py lines 250-272) -/

/-- The manual synonym map of `normalize_kw_display` (surface variant →
canonical display form), copied entry for entry from the source. -/
def map_dict : List (String × String) :=
  [("재미있는", "재미"), ("재밌는", "재미"), ("꿀잼", "재미"), ("존잼", "재미"), ("잼", "재미"),
   ("게임플레이", "게임"), ("플레이", "게임"), ("Game", "게임"),
   ("업뎃", "업데이트"), ("패치", "업데이트"), ("업그레이드", "업데이트"),
   ("타격", "타격감"),
   ("랙", "최적화"), ("렉", "최적화"), ("튕김", "최적화"), ("발열", "최적화"),
   ("버벅", "최적화"), ("끊김", "최적화"),
   ("캐릭", "캐릭터"), ("여캐", "캐릭터"), ("남캐", "캐릭터"),
   ("현질", "과금"), ("과금유도", "과금"),
   ("운영자", "운영"), ("개발자", "운영"),
   ("스토리", "스토리"),
   ("아트", "아트/그래픽"), ("그래픽", "아트/그래픽"), ("일러", "아트/그래픽"), ("일러스트", "아트/그래픽")]

/-- `text.replace(" ", "")`: remove every ASCII space. -/
def stripNoSpace (s : String) : String := ⟨s.data.filter (fun c => c ≠ ' ')⟩

/-- `normalize_kw_display` from src/pages/1_📊_Overview.py: strip the token,
look the stripped form up in the synonym map, then the space-free form, and
otherwise return the stripped token unchanged.  (The Python function returns
non-`str` inputs untouched; keyword tokens are strings, so the embedding takes
a `String`.) -/
def normalize_kw_display (text : String) : String :=
  match List.lookup (pyStrip text) map_dict with
  | some v => v
  | Option.none =>
    match List.lookup (stripNoSpace (pyStrip text)) map_dict with
    | some v => v
    | Option.none => pyStrip text

theorem lookup_mem_snd {l : List (String × String)} {a b : String}
    (h : List.lookup a l = some b) : b ∈ l.map Prod.snd := by
  induction l with
  | nil => simp [List.lookup] at h
  | cons p t ih =>
    rw [List.lookup] at h
    cases hab : a == p.1
    · rw [hab] at h
      simp at h
      rw [List.map_cons]
      exact List.mem_cons_of_mem _ (ih h)
    · rw [hab] at h
      simp at h
      rw [List.map_cons, ← h]
      exact List.mem_cons_self _ _

/-- Every canonical value of the synonym map is a fixed point of the
consolidator (checked by evaluation over the 30 concrete entries). -/
theorem map_dict_values_fixed :
    ∀ v ∈ map_dict.map Prod.snd, normalize_kw_display v = v := by decide

/-- Claim C5: the keyword consolidator is idempotent — consolidating a token
twice gives the same result as consolidating it once; every output (a synonym
map value or the stripped token returned unchanged) is a fixed point of the
raw-then-space-free map lookup. -/
theorem c5_normalize_kw_display_idem (x : String) :
    normalize_kw_display (normalize_kw_display x) = normalize_kw_display x := by
  cases h1 : List.lookup (pyStrip x) map_dict with
  | some v =>
    have hx : normalize_kw_display x = v := by
      unfold normalize_kw_display
      rw [h1]
    rw [hx]
    exact map_dict_values_fixed v (lookup_mem_snd h1)
  | none =>
    cases h2 : List.lookup (stripNoSpace (pyStrip x)) map_dict with
    | some v =>
      have hx : normalize_kw_display x = v := by
        unfold normalize_kw_display
        rw [h1, h2]
      rw [hx]
      exact map_dict_values_fixed v (lookup_mem_snd h2)
    | none =>
      have hx : normalize_kw_display x = pyStrip x := by
        unfold normalize_kw_display
        rw [h1, h2]
      rw [hx]
      unfold normalize_kw_display
      rw [pyStrip_idem, h1, h2]

/-! ### Version Delta Engine: semantic version parsing and ordering
(`parse_version` lines 47-61 and `ver_order` lines 450-457 of
src/pages/1_📊_Overview.py) -/

/-- Maximal runs of characters satisfying `p`, skipping the rest; structural
fuel (`= input length`) keeps the definition kernel-reducible. -/
def runsOfAux (p : Char → Bool) : ℕ → List Char → List (List Char)
  | _, [] => []
  | 0, _ => []
  | fuel + 1, c :: cs =>
    if p c then (c :: cs.takeWhile p) :: runsOfAux p fuel (cs.dropWhile p)
    else runsOfAux p fuel cs

def runsOf (p : Char → Bool) (l : List Char) : List (List Char) := runsOfAux p l.length l

/-- `int` on a run of decimal digits. -/
def natOfDigits (l : List Char) : ℕ := l.foldl (fun acc c => acc * 10 + (c.toNat - 48)) 0

/-- `re.findall(r"\d+", s)` followed by `int`: all digit groups, in order. -/
def digitGroups (l : List Char) : List ℕ := (runsOf Char.isDigit l).map natOfDigits

/-- `parse_version` from src/pages/1_📊_Overview.py lines 47-61: drop letters,
underscores and hyphens (`re.sub(r"[a-zA-Z_-]", "", v)`), extract the digit
groups in order, pad with zeros to length 3 and keep the first three.  The
Python function returns `(0, 0, 0)` for non-string input; the embedding takes
strings only. -/
def parse_version (v : String) : ℕ × ℕ × ℕ :=
  let nums := digitGroups (v.data.filter (fun c => !(c.isAlpha ∨ c = '_' ∨ c = '-')))
  let padded := nums ++ List.replicate (3 - nums.length) 0
  (padded.getD 0 0, padded.getD 1 0, padded.getD 2 0)

/-- Lexicographic comparison of (major, minor, patch) triples — exactly how
Python compares the tuples `parse_version` returns. -/
def tripleLe (t u : ℕ × ℕ × ℕ) : Prop :=
  t.1 < u.1 ∨ (t.1 = u.1 ∧ (t.2.1 < u.2.1 ∨ (t.2.1 = u.2.1 ∧ t.2.2 ≤ u.2.2)))

instance : DecidableRel tripleLe := fun t u => by unfold tripleLe; infer_instance

/-- The key order of `sorted(unique_versions, key=parse_version)`. -/
def verLE (a b : String) : Prop := tripleLe (parse_version a) (parse_version b)

instance : DecidableRel verLE := fun a b => by unfold verLE; infer_instance

theorem tripleLe_total (t u : ℕ × ℕ × ℕ) : tripleLe t u ∨ tripleLe u t := by
  rcases t with ⟨a, b, c⟩
  rcases u with ⟨d, e, f⟩
  unfold tripleLe
  simp only []
  omega

theorem tripleLe_trans {t u v : ℕ × ℕ × ℕ} (h1 : tripleLe t u) (h2 : tripleLe u v) :
    tripleLe t v := by
  rcases t with ⟨a, b, c⟩
  rcases u with ⟨d, e, f⟩
  rcases v with ⟨g, i, j⟩
  unfold tripleLe at h1 h2 ⊢
  simp only [] at h1 h2 ⊢
  omega

instance : IsTotal String verLE := ⟨fun a b => tripleLe_total (parse_version a) (parse_version b)⟩

instance : IsTrans String verLE := ⟨fun _ _ _ h1 h2 => tripleLe_trans h1 h2⟩

/-- `sorted(vs, key=parse_version)` modelled by a stable sort under the
pulled-back tuple order (Python's sort is also stable). -/
def sortVersions (vs : List String) : List String := List.insertionSort verLE vs

/-- A record as used by the version-trend block: an optional `appVersion` and
a timestamp `tstamp` modelling the `at` column (`at` is a Lean keyword);
timestamps are integers, only their order is used. -/
structure TrendRecord where
  appVersion : Option String
  tstamp : ℤ
deriving DecidableEq

/-- `pandas.unique`: distinct values in order of first occurrence. -/
def uniqueFirstAux : List String → List String → List String
  | _, [] => []
  | seen, x :: xs =>
    if x ∈ seen then uniqueFirstAux seen xs
    else x :: uniqueFirstAux (x :: seen) xs

def uniqueFirst (l : List String) : List String := uniqueFirstAux [] l

/-- `ver_order` (src/pages/1_📊_Overview.py lines 450-454):
`sorted(df["appVersion"].dropna().unique(), key=parse_version)`.  The
`try/except` around it is dead for parse failures — `parse_version` is total —
so the sort is always taken. -/
def verOrder (recs : List TrendRecord) : List String :=
  sortVersions (uniqueFirst (recs.filterMap (fun r => r.appVersion)))

/-- Lexicographic code-point order on strings (the order pandas uses to sort
`groupby` keys); kernel-reducible, unlike `String.le`. -/
def charsLe : List Char → List Char → Bool
  | [], _ => true
  | _ :: _, [] => false
  | a :: as, b :: bs => if a = b then charsLe as bs else decide (a < b)

def strLexLe (a b : String) : Bool := charsLe a.data b.data

/-- Earliest timestamp of the records carrying version `v`
(`df.groupby("appVersion")["at"].min()`); groups are nonempty, so the default
is never observed. -/
def minAt (recs : List TrendRecord) (v : String) : ℤ :=
  match (recs.filter (fun r => r.appVersion = some v)).map (fun r => r.tstamp) with
  | [] => 0
  | t :: ts => ts.foldl min t

/-- The `except:` branch of `ver_order` (lines 455-457):
`df.groupby("appVersion")["at"].min().sort_values().index.tolist()` — versions
ordered by their earliest timestamp (groupby sorts keys; `sort_values` is a
stable ascending sort). -/
def timestampOrder (recs : List TrendRecord) : List String :=
  let keys := List.insertionSort (fun a b => strLexLe a b = true)
    (uniqueFirst (recs.filterMap (fun r => r.appVersion)))
  List.insertionSort (fun a b => minAt recs a ≤ minAt recs b) keys

/-! ### Cluster Aggregator
(src/pages/1_📊_Overview.py lines 135-196 and `load_data` in src/Main.py) -/

/-- A normalized review record as the Overview page sees it after its
preprocessing (score coerced with `fillna(0)`, `sentiment_label` and
`intensity` present, `cluster` stringified). -/
structure OvRecord where
  reviewId : String
  cluster : String
  intensity : ℚ
  score : ℚ
  sentiment_label : String
  categories : String

/-- Arithmetic mean (`Series.mean`); the embedding's `0` for the empty list is
never observed because every aggregated group is nonempty. -/
def mean (l : List ℚ) : ℚ := l.sum / (l.length : ℚ)

def countOcc (l : List String) (x : String) : ℕ := (l.filter (fun y => y = x)).length

/-- The most frequent value of a list, earliest first occurrence winning ties
(`Series.value_counts().index[0]`). -/
def mostCommon (l : List String) : Option String :=
  (uniqueFirst l).foldl
    (fun best x =>
      match best with
      | Option.none => some x
      | some b => if countOcc l x > countOcc l b then some x else some b)
    Option.none

/-- `get_top_item` (lines 146-151): mode of a series, `"Unknown"` when empty. -/
def get_top_item (l : List String) : String := (mostCommon l).getD "Unknown"

/-- `determine_group_type` (lines 180-187): `N-`/`P-` prefixes take priority;
otherwise the 3.2 average-score threshold decides. -/
def determine_group_type (cid : String) (avg_score : ℚ) : String :=
  if "N-".data.isPrefixOf cid.data then "Negative (Risk)"
  else if "P-".data.isPrefixOf cid.data then "Positive (Strength)"
  else if avg_score ≤ 3.2 then "Negative (Risk)"
  else "Positive (Strength)"

/-- One row of `base_stats` (lines 153-189). -/
structure ClusterAgg where
  cluster : String
  count : ℕ
  avg_intensity : ℚ
  avg_score : ℚ
  main_sentiment : String
  main_category : String
  impact_score : ℚ
  keywords_label : String
  group_type : String

/-- `get_cluster_label` (lines 166-169). -/
def clusterLabel (cluster_kws : List (String × List String)) (cid : String) : String :=
  match List.lookup cid cluster_kws with
  | some kws => String.intercalate ", " (kws.take 3)
  | Option.none => "Cluster " ++ cid

/-- The Cluster Aggregator (lines 135-189): drop the `"-1"` sentinel cluster,
group the rest by cluster id (pandas `groupby` sorts the keys), and compute
the per-cluster statistics, impact score and group type. -/
def clusterAggregates (cluster_kws : List (String × List String)) (recs : List OvRecord) :
    List ClusterAgg :=
  let c_df := recs.filter (fun r => r.cluster ≠ "-1")
  let cids := List.insertionSort (fun a b => strLexLe a b = true)
    (uniqueFirst (c_df.map (fun r => r.cluster)))
  cids.map (fun cid =>
    let g := c_df.filter (fun r => r.cluster = cid)
    let ai := mean (g.map (fun r => r.intensity))
    let asc := mean (g.map (fun r => r.score))
    ⟨cid, g.length, ai, asc,
      get_top_item (g.map (fun r => r.sentiment_label)),
      get_top_item (g.map (fun r => r.categories)),
      (g.length : ℚ) * ai,
      clusterLabel cluster_kws cid,
      determine_group_type cid asc⟩)

/-- A record as `load_data` in src/Main.py sees it: a stringified cluster id
and the raw serialized `keywords` cell (missing = `NaN`). -/
structure MainRecord where
  cluster : String
  keywords : Option String

/-- One `keywords` cell in `load_data`: `ast.literal_eval` then `extend` on a
list result; any failure or non-list literal appends the raw string.  (In
Python a successful non-list literal also appends `str(k_str)`, i.e. the same
raw string, so collapsing both cases into `none` is behaviour-preserving.) -/
def kwParse (s : String) : List String :=
  match literalEvalList s with
  | some l => l
  | Option.none => [s]

/-- `Counter(kws).most_common(n)` keys: distinct values stably sorted by
descending count (ties keep first-encounter order). -/
def mostCommonN (l : List String) (n : ℕ) : List String :=
  (List.insertionSort (fun a b => countOcc l a ≥ countOcc l b) (uniqueFirst l)).take n

/-- `cluster_info` built by `load_data` (src/Main.py lines 90-108): for every
non-sentinel cluster id, the top-10 keywords of the first 50 records of that
cluster. -/
def clusterInfo (recs : List MainRecord) : List (String × List String) :=
  (uniqueFirst (recs.map (fun r => r.cluster))).filterMap (fun cid =>
    if cid = "-1" then Option.none
    else
      let sample := (recs.filter (fun r => r.cluster = cid)).take 50
      let kws := ((sample.filterMap (fun r => r.keywords)).map kwParse).flatten
      some (cid, mostCommonN kws 10))

/-! ### Score coercion
(src/pages/1_📊_Overview.py lines 37-38 and
src/pages/3_⚙️_Update_Impact_Checker.py lines 46-52) -/

/-- `astype(int)` on a float: truncation toward zero. -/
def truncToInt (q : ℚ) : ℤ := if 0 ≤ q then ⌊q⌋ else -⌊-q⌋

/-- The Overview page's score column: a raw cell is the result of
`pd.to_numeric(..., errors="coerce")` (`none` = non-numeric or missing), then
`fillna(0).astype(int)` — missing becomes the integer 0 and stays in the
column. -/
def overviewScoreCol (raw : List (Option ℚ)) : List ℤ :=
  raw.map (fun x => truncToInt (x.getD 0))

/-- The Update Impact Checker's rows surviving its score preprocessing:
`pd.to_numeric(..., errors="coerce")` then `dropna(subset=["score"])` — rows
with non-numeric scores are removed entirely. -/
def checkerScoreRows (raw : List (Option ℚ)) : List ℚ := raw.filterMap id

/-- The checker's score column after the `astype(int)` cast. -/
def checkerScoreCol (raw : List (Option ℚ)) : List ℤ := (checkerScoreRows raw).map truncToInt

/-- Mean of an integer column as a rational (`Series.mean`). -/
def meanZ (l : List ℤ) : ℚ := ((l.sum : ℚ)) / (l.length : ℚ)

/-! ### Update-Impact Comparator
(src/pages/3_⚙️_Update_Impact_Checker.py lines 128-298) -/

/-- A checker record after preprocessing: text content, coerced score, and an
integer timestamp for the `at` column. -/
structure ChkRecord where
  content : String
  score : ℚ
  tstamp : ℤ
deriving DecidableEq

/-- `before_df = df[df["at"] < update_date]`. -/
def beforeOf (recs : List ChkRecord) (cutover : ℤ) : List ChkRecord :=
  recs.filter (fun r => r.tstamp < cutover)

/-- `after_df = df[df["at"] >= update_date]`. -/
def afterOf (recs : List ChkRecord) (cutover : ℤ) : List ChkRecord :=
  recs.filter (fun r => cutover ≤ r.tstamp)

/-- `str.split()` with no separator: maximal runs of non-whitespace. -/
def wsTokens (l : List Char) : List String :=
  (runsOf (fun c => !c.isWhitespace) l).map (fun run => (⟨run⟩ : String))

/-- Is `needle` a contiguous sublist of `hay`? (Python's `in` on strings.) -/
def subOccurs (needle : List Char) : List Char → Bool
  | [] => needle.isEmpty
  | c :: t => needle.isPrefixOf (c :: t) || subOccurs needle t

/-- `Series.str.contains(kw, case=False, regex=False)` for one cell: literal
substring search after lowercasing both sides (`Char.toLower` is ASCII-only,
like the keywords this page searches for; Hangul has no case). -/
def containsCI (hay needle : String) : Bool :=
  subOccurs (needle.data.map Char.toLower) (hay.data.map Char.toLower)

/-- One per-change row of `results` (lines 223-260): counts and conditional
averages of the keyword-matching records on each side of the cutover; `none`
when a change line has no tokens (the loop `continue`s). -/
structure ImpactRow where
  change : String
  before_count : ℕ
  after_count : ℕ
  before_avg : Option ℚ
  after_avg : Option ℚ
deriving DecidableEq

def buildRow (before after : List ChkRecord) (change : String) : Option ImpactRow :=
  match wsTokens change.data with
  | [] => Option.none
  | kw :: _ =>
    let bsub := before.filter (fun r => containsCI r.content kw)
    let asub := after.filter (fun r => containsCI r.content kw)
    some ⟨change, bsub.length, asub.length,
      if bsub.length > 0 then some (mean (bsub.map (fun r => r.score))) else Option.none,
      if asub.length > 0 then some (mean (asub.map (fun r => r.score))) else Option.none⟩

/-- Round half to even on rationals (the rounding `round` applies; the binary
floating-point representation error of CPython is not modelled). -/
def roundHalfEven (q : ℚ) : ℤ :=
  if q - ⌊q⌋ < 1/2 then ⌊q⌋
  else if 1/2 < q - ⌊q⌋ then ⌊q⌋ + 1
  else if ⌊q⌋ % 2 = 0 then ⌊q⌋ else ⌊q⌋ + 1

/-- `round(x, 2)`. -/
def pyRound2 (q : ℚ) : ℚ := (roundHalfEven (q * 100) : ℚ) / 100

/-- A CPython float as `compute_score` sees it: either a number (modelled
exactly by a rational) or `NaN`. -/
inductive PyFloat where
  | nan : PyFloat
  | val : ℚ → PyFloat
deriving DecidableEq

/-- One row of `impact_df = pd.DataFrame(results)` (line 262): the average
cells are either Python `None` (`Option.none`, when the whole column kept
object dtype) or a float — possibly `NaN`. -/
structure DFRow where
  change : String
  before_count : ℕ
  after_count : ℕ
  before_avg : Option PyFloat
  after_avg : Option PyFloat
deriving DecidableEq

/-- `pd.DataFrame` column coercion for one average cell: if any row of the
column holds a number the column becomes float64 and `None` is coerced to
`NaN`; if the column is all-`None` it stays object dtype and `None` survives. -/
def coerceCell (colHasNum : Bool) : Option ℚ → Option PyFloat
  | some q => some (PyFloat.val q)
  | Option.none => if colHasNum then some PyFloat.nan else Option.none

/-- One `results` row as it appears inside `impact_df`, given whether each
average column contains at least one number. -/
def toDFRow (bHas aHas : Bool) (r : ImpactRow) : DFRow :=
  ⟨r.change, r.before_count, r.after_count,
    coerceCell bHas r.before_avg, coerceCell aHas r.after_avg⟩

/-- `impact_df = pd.DataFrame(results)`: per-column dtype is decided by the
whole column, then every row is coerced. -/
def toDFRows (rows : List ImpactRow) : List DFRow :=
  rows.map (toDFRow (rows.any (fun r => r.before_avg.isSome))
    (rows.any (fun r => r.after_avg.isSome)))

/-- `compute_score` (src/pages/3_⚙️_Update_Impact_Checker.py lines 286-296),
applied to a row of `impact_df`: start at 0, add the count-decrease ratio
times 50 when `before_count > 0`, add the average-score delta times 10 when
both average cells pass `is not None` — a `NaN` cell passes that check and
poisons the sum, and `max(NaN, 0)` and `round(NaN, 2)` are `NaN` — then clamp
at 0 and round to two decimals. -/
def compute_score (row : DFRow) : PyFloat :=
  let s1 : ℚ :=
    if row.before_count > 0 then
      (((row.before_count : ℚ) - (row.after_count : ℚ)) / (row.before_count : ℚ)) * 50
    else 0
  match row.before_avg, row.after_avg with
  | some (PyFloat.val b), some (PyFloat.val a) =>
    PyFloat.val (pyRound2 (max (s1 + (a - b) * 10) 0))
  | some _, some _ => PyFloat.nan
  | _, _ => PyFloat.val (pyRound2 (max s1 0))

/-- The whole per-change scoring pipeline of the page (lines 221-298): build
the `results` rows (token-less change lines are skipped), form `impact_df`,
and apply `compute_score` to every row. -/
def impactScores (recs : List ChkRecord) (cutover : ℤ) (changes : List String) :
    List PyFloat :=
  (toDFRows (changes.filterMap
    (buildRow (beforeOf recs cutover) (afterOf recs cutover)))).map compute_score

/-- Modelled from the spec's words (§4.6): the improvement-score formula
`ratio_of_count_decrease × 50 + (after_avg − before_avg) × 10`, each term
omitted when undefined, clamped to a minimum of 0 — stated without the
two-decimal rounding the code applies. -/
def spec_improvement (row : ImpactRow) : ℚ :=
  max
    ((if row.before_count > 0 then
        (((row.before_count : ℚ) - (row.after_count : ℚ)) / (row.before_count : ℚ)) * 50
      else 0) +
     (match row.before_avg, row.after_avg with
      | some b, some a => (a - b) * 10
      | _, _ => 0))
    0

/-! ### Claim C3: cluster group-type classification -/

theorem not_nPrefix_of_pPrefix {cid : String} (hP : "P-".data.isPrefixOf cid.data = true) :
    "N-".data.isPrefixOf cid.data = false := by
  rcases List.isPrefixOf_iff_prefix.mp hP with ⟨t, ht⟩
  cases hN : "N-".data.isPrefixOf cid.data with
  | false => rfl
  | true =>
    rcases List.isPrefixOf_iff_prefix.mp hN with ⟨u, hu⟩
    rw [← ht] at hu
    simp at hu

/-- Claim C3: `group_type` is Negative (Risk) for cluster ids with the `N-`
prefix, Positive (Strength) for the `P-` prefix, and for all other ids it is
Negative (Risk) exactly when the average score is at most 3.2. -/
theorem c3_group_type (cid : String) (avg : ℚ) :
    ("N-".data.isPrefixOf cid.data = true →
      determine_group_type cid avg = "Negative (Risk)") ∧
    ("P-".data.isPrefixOf cid.data = true →
      determine_group_type cid avg = "Positive (Strength)") ∧
    ("N-".data.isPrefixOf cid.data = false → "P-".data.isPrefixOf cid.data = false →
      (determine_group_type cid avg = "Negative (Risk)" ↔ avg ≤ 3.2)) := by
  refine ⟨?_, ?_, ?_⟩
  · intro hN
    unfold determine_group_type
    rw [if_pos hN]
  · intro hP
    unfold determine_group_type
    rw [if_neg (by simp [not_nPrefix_of_pPrefix hP]), if_pos hP]
  · intro hN hP
    unfold determine_group_type
    rw [if_neg (by simp [hN]), if_neg (by simp [hP])]
    by_cases havg : avg ≤ 3.2
    · rw [if_pos havg]
      simp [havg]
    · rw [if_neg havg]
      constructor
      · intro h
        exact absurd h (by decide)
      · intro h
        exact absurd h havg

theorem c3_group_type_witness :
    determine_group_type "N-1" 5 = "Negative (Risk)" ∧
    determine_group_type "P-1" 1 = "Positive (Strength)" ∧
    (determine_group_type "7" 3 = "Negative (Risk)" ↔ (3 : ℚ) ≤ 3.2) :=
  ⟨(c3_group_type "N-1" 5).1 (by decide),
   (c3_group_type "P-1" 1).2.1 (by decide),
   (c3_group_type "7" 3).2.2 (by decide) (by decide)⟩

/-! ### Claim C2: improvement-score formula -/

/-- Claim C2 (amended): on an `impact_df` row whose average cells are both
numeric, and on every row where a side's cell is still Python `None`, the
computed improvement score is the spec formula `ratio_of_count_decrease × 50 +
(after_avg − before_avg) × 10` — a `None` side's term omitted — clamped at 0
and then **rounded to two decimal places** (the rounding is what the original
claim omits); but when a zero-match side's `None` was coerced to `NaN` by
`pd.DataFrame` (its column holds another row's number) and the other cell is
present, the score is `NaN` rather than a number, so the zero-match side
"contributes 0" only while its column stays object-typed; the claim's worked
example evaluates to exactly 50. -/
theorem c2_improvement_formula :
    (∀ (bHas aHas : Bool) (r : ImpactRow), r.before_avg.isSome = true →
        r.after_avg.isSome = true →
        compute_score (toDFRow bHas aHas r) = PyFloat.val (pyRound2 (spec_improvement r))) ∧
    (∀ (bHas aHas : Bool) (r : ImpactRow),
        (toDFRow bHas aHas r).before_avg = Option.none ∨
          (toDFRow bHas aHas r).after_avg = Option.none →
        compute_score (toDFRow bHas aHas r) = PyFloat.val (pyRound2 (spec_improvement r))) ∧
    (∀ (bHas aHas : Bool) (r : ImpactRow),
        (toDFRow bHas aHas r).before_avg = some PyFloat.nan →
        (toDFRow bHas aHas r).after_avg.isSome = true →
        compute_score (toDFRow bHas aHas r) = PyFloat.nan) ∧
    (∀ (bHas aHas : Bool) (r : ImpactRow),
        (toDFRow bHas aHas r).before_avg.isSome = true →
        (toDFRow bHas aHas r).after_avg = some PyFloat.nan →
        compute_score (toDFRow bHas aHas r) = PyFloat.nan) ∧
    compute_score (toDFRow true true ⟨"", 100, 40, some 2, some 4⟩) = PyFloat.val 50 := by
  refine ⟨?_, ?_, ?_, ?_, ?_⟩
  · intro bHas aHas r hb ha
    obtain ⟨c, bc, ac, ba, aa⟩ := r
    rcases ba with _ | b
    · simp at hb
    rcases aa with _ | a
    · simp at ha
    rfl
  · intro bHas aHas r hor
    obtain ⟨c, bc, ac, ba, aa⟩ := r
    rcases hor with hcb | hca
    · rcases ba with _ | b
      · cases bHas
        · rcases aa with _ | a
          · cases aHas
            · show PyFloat.val (pyRound2 (max _ 0)) = PyFloat.val (pyRound2 (max (_ + 0) 0))
              rw [add_zero]
              rfl
            · show PyFloat.val (pyRound2 (max _ 0)) = PyFloat.val (pyRound2 (max (_ + 0) 0))
              rw [add_zero]
              rfl
          · show PyFloat.val (pyRound2 (max _ 0)) = PyFloat.val (pyRound2 (max (_ + 0) 0))
            rw [add_zero]
            rfl
        · simp [toDFRow, coerceCell] at hcb
      · simp [toDFRow, coerceCell] at hcb
    · rcases aa with _ | a
      · cases aHas
        · rcases ba with _ | b
          · cases bHas
            · show PyFloat.val (pyRound2 (max _ 0)) = PyFloat.val (pyRound2 (max (_ + 0) 0))
              rw [add_zero]
              rfl
            · show PyFloat.val (pyRound2 (max _ 0)) = PyFloat.val (pyRound2 (max (_ + 0) 0))
              rw [add_zero]
              rfl
          · show PyFloat.val (pyRound2 (max _ 0)) = PyFloat.val (pyRound2 (max (_ + 0) 0))
            rw [add_zero]
            rfl
        · simp [toDFRow, coerceCell] at hca
      · simp [toDFRow, coerceCell] at hca
  · intro bHas aHas r hcb hca
    obtain ⟨c, bc, ac, ba, aa⟩ := r
    rcases ba with _ | b
    · cases bHas
      · simp [toDFRow, coerceCell] at hcb
      · rcases aa with _ | a
        · cases aHas
          · simp [toDFRow, coerceCell] at hca
          · rfl
        · rfl
    · simp [toDFRow, coerceCell] at hcb
  · intro bHas aHas r hcb hca
    obtain ⟨c, bc, ac, ba, aa⟩ := r
    rcases aa with _ | a
    · cases aHas
      · simp [toDFRow, coerceCell] at hca
      · rcases ba with _ | b
        · cases bHas
          · simp [toDFRow, coerceCell] at hcb
          · rfl
        · rfl
    · simp [toDFRow, coerceCell] at hca
  · refine congrArg PyFloat.val ?_
    show pyRound2 (spec_improvement ⟨"", 100, 40, some 2, some 4⟩) = 50
    have h1 : spec_improvement ⟨"", 100, 40, some 2, some 4⟩ = 50 := by
      unfold spec_improvement
      norm_num
    rw [h1]
    unfold pyRound2 roundHalfEven
    norm_num

theorem c2_improvement_formula_witness :
    compute_score (toDFRow true true ⟨"y", 4, 1, some 2, some 3⟩) =
      PyFloat.val (pyRound2 (spec_improvement ⟨"y", 4, 1, some 2, some 3⟩)) ∧
    compute_score (toDFRow false false ⟨"z", 3, 2, Option.none, some 3⟩) =
      PyFloat.val (pyRound2 (spec_improvement ⟨"z", 3, 2, Option.none, some 3⟩)) ∧
    compute_score (toDFRow true true ⟨"w", 0, 2, Option.none, some 3⟩) = PyFloat.nan ∧
    compute_score (toDFRow true true ⟨"v", 2, 0, some 3, Option.none⟩) = PyFloat.nan :=
  ⟨(c2_improvement_formula.1 true true ⟨"y", 4, 1, some 2, some 3⟩) rfl rfl,
   (c2_improvement_formula.2.1 false false ⟨"z", 3, 2, Option.none, some 3⟩) (Or.inl rfl),
   (c2_improvement_formula.2.2.1 true true ⟨"w", 0, 2, Option.none, some 3⟩) rfl rfl,
   (c2_improvement_formula.2.2.2.1 true true ⟨"v", 2, 0, some 3, Option.none⟩) rfl rfl⟩

/-- Claim C2 counterexample: at `before_count = 3`, `after_count = 2` and no
matching averages (both cells still `None`) the code returns `16.67`
(two-decimal rounding), not the exact clamped formula value `50/3` the claim
asserts. -/
theorem c2_counterexample :
    compute_score ⟨"x", 3, 2, Option.none, Option.none⟩ = PyFloat.val (1667/100) ∧
    spec_improvement ⟨"x", 3, 2, Option.none, Option.none⟩ = 50/3 ∧
    PyFloat.val ((1667 : ℚ)/100) ≠ PyFloat.val (50/3) := by
  have h1 : spec_improvement ⟨"x", 3, 2, Option.none, Option.none⟩ = 50/3 := by
    unfold spec_improvement
    norm_num
  have h2 : compute_score ⟨"x", 3, 2, Option.none, Option.none⟩ = PyFloat.val (1667/100) := by
    unfold compute_score
    simp only [PyFloat.val.injEq]
    norm_num [pyRound2, roundHalfEven]
  refine ⟨h2, h1, ?_⟩
  intro h
  rw [PyFloat.val.injEq] at h
  norm_num at h

/-! ### Claim C10: zero before-matches and the improvement score -/

/-- Claim C10 counterexample: in a two-change run where the other change does
match before-records, `pd.DataFrame` turns the zero-match row's `None`
averages into `NaN` (the columns hold the other row's numbers), `NaN` passes
`is not None`, and the zero-before-match change's score is `NaN` — not the
claimed exact 0. -/
theorem c10_counterexample :
    (impactScores [⟨"login slow", 2, 1⟩, ⟨"login ok", 4, 10⟩] 5
        ["login fix", "crash bug"]).getD 1 (PyFloat.val 0) = PyFloat.nan ∧
    PyFloat.nan ≠ PyFloat.val 0 := by decide

/-- Claim C10 (amended): a change whose first token matches no before-record
gets `before_count = 0` and `before_avg = None` in its `results` row; its
score is exactly 0 only while its `before_avg` stays `None` inside
`impact_df` — when no other row put a number in that column — or when the
after cell is also `None`; once the before column holds another row's number
the `None` is coerced to `NaN`, and with any non-`None` after cell the score
is `NaN` instead of 0. -/
theorem c10_zero_before_matches :
    (∀ (before after : List ChkRecord) (change kw : String) (rest : List String)
        (row : ImpactRow),
        wsTokens change.data = kw :: rest →
        before.filter (fun r => containsCI r.content kw) = [] →
        buildRow before after change = some row →
        row.before_count = 0 ∧ row.before_avg = Option.none) ∧
    (∀ (aHas : Bool) (row : ImpactRow), row.before_count = 0 →
        row.before_avg = Option.none →
        compute_score (toDFRow false aHas row) = PyFloat.val 0) ∧
    (∀ (aHas : Bool) (row : ImpactRow), row.before_avg = Option.none →
        row.after_avg.isSome = true ∨ aHas = true →
        compute_score (toDFRow true aHas row) = PyFloat.nan) ∧
    (∀ row : ImpactRow, row.before_count = 0 → row.before_avg = Option.none →
        row.after_avg = Option.none →
        compute_score (toDFRow true false row) = PyFloat.val 0) := by
  refine ⟨?_, ?_, ?_, ?_⟩
  · intro before after change kw rest row htok hmatch hrow
    unfold buildRow at hrow
    rw [htok] at hrow
    simp only [hmatch, List.length_nil, Option.some.injEq] at hrow
    rw [← hrow]
    exact ⟨rfl, by simp⟩
  · intro aHas row hbc hba
    unfold compute_score toDFRow coerceCell
    rw [hba, hbc]
    simp only [gt_iff_lt, lt_irrefl, if_false]
    rcases coerceCell aHas row.after_avg with _ | pf
    · refine congrArg PyFloat.val ?_
      norm_num [pyRound2, roundHalfEven]
    · cases pf <;>
      · refine congrArg PyFloat.val ?_
        norm_num [pyRound2, roundHalfEven]
  · intro aHas row hba hsome
    unfold compute_score toDFRow coerceCell
    rw [hba]
    rcases hra : row.after_avg with _ | q
    · rcases hsome with hs | hs
      · rw [hra] at hs; simp at hs
      · rw [hs]
        rfl
    · rfl
  · intro row hbc hba hra
    unfold compute_score toDFRow coerceCell
    rw [hba, hra, hbc]
    refine congrArg PyFloat.val ?_
    norm_num [pyRound2, roundHalfEven]

theorem c10_zero_before_matches_witness :
    ((⟨"login fix", 0, 0, Option.none, Option.none⟩ : ImpactRow).before_count = 0 ∧
      (⟨"login fix", 0, 0, Option.none, Option.none⟩ : ImpactRow).before_avg = Option.none) ∧
    compute_score (toDFRow false true ⟨"x", 0, 7, Option.none, some 3⟩) = PyFloat.val 0 ∧
    compute_score (toDFRow true true ⟨"x", 0, 7, Option.none, some 3⟩) = PyFloat.nan ∧
    compute_score (toDFRow true false ⟨"x", 0, 0, Option.none, Option.none⟩) = PyFloat.val 0 :=
  ⟨c10_zero_before_matches.1
      (beforeOf [⟨"great game", 5, 1⟩, ⟨"nice", 4, 10⟩] 3)
      (afterOf [⟨"great game", 5, 1⟩, ⟨"nice", 4, 10⟩] 3)
      "login fix" "login" ["fix"] ⟨"login fix", 0, 0, Option.none, Option.none⟩
      (by decide) (by decide) (by decide),
   c10_zero_before_matches.2.1 true ⟨"x", 0, 7, Option.none, some 3⟩ rfl rfl,
   c10_zero_before_matches.2.2.1 true ⟨"x", 0, 7, Option.none, some 3⟩ rfl (Or.inl rfl),
   c10_zero_before_matches.2.2.2 ⟨"x", 0, 0, Option.none, Option.none⟩ rfl rfl rfl⟩

/-! ### Claim C4: the sentinel cluster `"-1"` never reaches the output -/

theorem mem_uniqueFirstAux {x : String} :
    ∀ (l seen : List String), x ∈ uniqueFirstAux seen l ↔ (x ∈ l ∧ x ∉ seen) := by
  intro l
  induction l with
  | nil => intro seen; simp [uniqueFirstAux]
  | cons y ys ih =>
    intro seen
    unfold uniqueFirstAux
    by_cases hy : y ∈ seen
    · rw [if_pos hy, ih]
      constructor
      · rintro ⟨h1, h2⟩
        exact ⟨List.mem_cons_of_mem _ h1, h2⟩
      · rintro ⟨h1, h2⟩
        rcases List.mem_cons.mp h1 with rfl | h1
        · exact absurd hy h2
        · exact ⟨h1, h2⟩
    · rw [if_neg hy]
      constructor
      · intro h
        rcases List.mem_cons.mp h with rfl | h
        · exact ⟨List.mem_cons_self _ _, hy⟩
        · rcases (ih _).mp h with ⟨h1, h2⟩
          simp at h2
          exact ⟨List.mem_cons_of_mem _ h1, h2.2⟩
      · rintro ⟨h1, h2⟩
        rcases List.mem_cons.mp h1 with rfl | h1
        · exact List.mem_cons_self _ _
        · by_cases hxy : x = y
          · subst hxy; exact List.mem_cons_self _ _
          · exact List.mem_cons_of_mem _ ((ih _).mpr ⟨h1, by simp [hxy, h2]⟩)

theorem mem_uniqueFirst {x : String} {l : List String} : x ∈ uniqueFirst l ↔ x ∈ l := by
  unfold uniqueFirst
  rw [mem_uniqueFirstAux]
  simp

/-- Claim C4: no cluster aggregate and no `cluster_info` entry ever carries
the sentinel cluster id `"-1"`, for any input — records with that id are
dropped before any per-cluster statistic is computed. -/
theorem c4_sentinel_excluded :
    (∀ (ckws : List (String × List String)) (recs : List OvRecord),
        "-1" ∉ (clusterAggregates ckws recs).map (fun a => a.cluster)) ∧
    (∀ recs : List MainRecord, "-1" ∉ (clusterInfo recs).map Prod.fst) := by
  constructor
  · intro ckws recs hmem
    unfold clusterAggregates at hmem
    rw [List.map_map] at hmem
    rcases List.mem_map.mp hmem with ⟨cid, hcid, heq⟩
    simp only [Function.comp] at heq
    have hcid2 : cid ∈ uniqueFirst
        ((recs.filter (fun r => r.cluster ≠ "-1")).map (fun r => r.cluster)) :=
      ((List.perm_insertionSort _ _).mem_iff).mp hcid
    rcases List.mem_map.mp (mem_uniqueFirst.mp hcid2) with ⟨r, hr, hrc⟩
    have := (List.mem_filter.mp hr).2
    rw [hrc, heq] at this
    simp at this
  · intro recs hmem
    rcases List.mem_map.mp hmem with ⟨pair, hp, heq⟩
    rcases List.mem_filterMap.mp hp with ⟨cid, _, hres⟩
    by_cases hcid : cid = "-1"
    · rw [if_pos hcid] at hres
      exact Option.noConfusion hres
    · rw [if_neg hcid] at hres
      have : pair.1 = cid := by
        have := congrArg (fun o => Option.map Prod.fst o) hres
        simp at this
        rw [this]
      rw [← heq, this] at hcid
      exact hcid rfl

/-! ### Claim C6: version parsing and semantic ordering -/

/-- Claim C6: `parse_version` yields `(1,2,3)`, `(1,2,0)` and `(1,2,3)` on the
spec's three examples, and sorting any version list with it produces a
sequence ordered (and a permutation of the input) under direct lexicographic
tuple comparison of the parsed triples. -/
theorem c6_parse_version_order :
    parse_version "1.2.3" = (1, 2, 3) ∧ parse_version "v1.2" = (1, 2, 0) ∧
    parse_version "1.2.3.4" = (1, 2, 3) ∧
    ∀ vs : List String, List.Sorted verLE (sortVersions vs) ∧ (sortVersions vs).Perm vs :=
  ⟨by decide, by decide, by decide,
   fun vs => ⟨List.sorted_insertionSort verLE vs, List.perm_insertionSort verLE vs⟩⟩

/-! ### Claim C7: digit-free version strings and the ordering fallback -/

/-- Claim C7 counterexample: with versions `"beta"` (earliest timestamp 10)
and `"1.2"` (earliest timestamp 5), `"beta"` has no digits, yet the engine
still produces the semantic order `["beta", "1.2"]` (`"beta"` parses to
`(0,0,0)`), not the timestamp order `["1.2", "beta"]` the claim requires. -/
theorem c7_counterexample :
    verOrder [⟨some "beta", 10⟩, ⟨some "1.2", 5⟩] = ["beta", "1.2"] ∧
    timestampOrder [⟨some "beta", 10⟩, ⟨some "1.2", 5⟩] = ["1.2", "beta"] ∧
    verOrder [⟨some "beta", 10⟩, ⟨some "1.2", 5⟩] ≠
      timestampOrder [⟨some "beta", 10⟩, ⟨some "1.2", 5⟩] := by
  refine ⟨?_, ?_, ?_⟩ <;> decide

theorem runsOfAux_eq_nil {p : Char → Bool} :
    ∀ (l : List Char) (fuel : ℕ), (∀ c ∈ l, p c = false) → runsOfAux p fuel l = [] := by
  intro l
  induction l with
  | nil => intro fuel _; cases fuel <;> rfl
  | cons c cs ih =>
    intro fuel h
    cases fuel with
    | zero => rfl
    | succ fuel =>
      unfold runsOfAux
      rw [if_neg (by simp [h c (List.mem_cons_self _ _)])]
      exact ih fuel (fun d hd => h d (List.mem_cons_of_mem _ hd))

/-- Claim C7 (amended): a version string without digits does **not** make the
engine fall back to timestamp ordering — `parse_version` never raises, maps
such a string to `(0, 0, 0)`, and the version stays inside the single semantic
sort (`ver_order`'s `except:` branch is unreachable from parse failures). -/
theorem c7_no_digit_versions_included :
    (∀ v : String, (∀ c ∈ v.data, c.isDigit = false) → parse_version v = (0, 0, 0)) ∧
    (∀ (recs : List TrendRecord) (v : String),
        some v ∈ recs.map (fun r => r.appVersion) → v ∈ verOrder recs) := by
  constructor
  · intro v hv
    unfold parse_version digitGroups runsOf
    rw [runsOfAux_eq_nil _ _ (fun c hc => hv c (List.mem_of_mem_filter hc))]
    rfl
  · intro recs v hv
    rcases List.mem_map.mp hv with ⟨r, hr, hrv⟩
    unfold verOrder sortVersions
    rw [(List.perm_insertionSort verLE _).mem_iff, mem_uniqueFirst]
    exact List.mem_filterMap.mpr ⟨r, hr, hrv⟩

theorem c7_no_digit_versions_included_witness :
    parse_version "beta" = (0, 0, 0) ∧
    "beta" ∈ verOrder [⟨some "beta", 10⟩, ⟨some "1.2", 5⟩] :=
  ⟨c7_no_digit_versions_included.1 "beta" (by decide),
   c7_no_digit_versions_included.2 [⟨some "beta", 10⟩, ⟨some "1.2", 5⟩] "beta" (by decide)⟩

/-! ### Claim C8: treatment of non-numeric / missing scores -/

/-- Claim C8 (amended): the two pages disagree with the claim in opposite
directions — the Overview coerces a non-numeric score to the integer 0 and
keeps the record inside score-based metrics (the column keeps one entry per
row, missing entries contributing 0 to the sum), while the Update Impact
Checker drops such records entirely, so they are missing even from aggregates
that do not need the score (only the rows whose score parses survive). -/
theorem c8_score_coercion_policy :
    (∀ raw : List (Option ℚ), (overviewScoreCol raw).length = raw.length) ∧
    (∀ raw : List (Option ℚ),
        (overviewScoreCol raw).sum = ((raw.filterMap id).map truncToInt).sum) ∧
    (∀ raw : List (Option ℚ),
        (checkerScoreRows raw).length = (raw.filter (fun x => x.isSome)).length) := by
  refine ⟨?_, ?_, ?_⟩
  · intro raw
    unfold overviewScoreCol
    rw [List.length_map]
  · intro raw
    induction raw with
    | nil => rfl
    | cons x xs ih =>
      cases x with
      | none =>
        simp only [overviewScoreCol, List.map_cons, List.sum_cons, List.filterMap_cons,
          id_eq] at ih ⊢
        rw [ih]
        show truncToInt 0 + _ = _
        rw [show truncToInt 0 = 0 by unfold truncToInt; norm_num]
        omega
      | some q =>
        simp only [overviewScoreCol, List.map_cons, List.sum_cons, List.filterMap_cons,
          id_eq, Option.getD_some] at ih ⊢
        rw [ih]
  · intro raw
    induction raw with
    | nil => rfl
    | cons x xs ih =>
      cases x with
      | none =>
        simp only [checkerScoreRows, List.filterMap_cons, List.filter_cons, id_eq] at ih ⊢
        simpa using ih
      | some q =>
        simp only [checkerScoreRows, List.filterMap_cons, List.filter_cons, id_eq] at ih ⊢
        simpa using ih

/-- Claim C8 counterexample: the raw score column `[5, non-numeric]` gives the
Overview page an average of `5/2` (the missing score participates as 0), not
the `5` that excluding it would give; and the checker keeps only 1 of the 2
records, so the missing-score record is absent even from plain row counts. -/
theorem c8_counterexample :
    meanZ (overviewScoreCol [some 5, Option.none]) = 5/2 ∧ ((5 : ℚ)/2 ≠ 5) ∧
    (checkerScoreRows [some 5, Option.none]).length = 1 := by
  refine ⟨?_, by norm_num, rfl⟩
  unfold meanZ overviewScoreCol truncToInt
  norm_num

/-! ### Claim C9: empty strings in parsed keyword sequences -/

/-- Claim C9 counterexample: the structured parse happily returns empty
strings — `"['a', '']"` parses to `["a", ""]` — and a single-element native
list (the only native-list size that survives the `pd.isna` truth test)
passes an empty string through untouched, so "no empty strings for every
input" fails. -/
theorem c9_counterexample :
    robust_eval_list (PyVal.str "['a', '']") = some ["a", ""] ∧ "" ∈ ["a", ""] ∧
    robust_eval_list (PyVal.list [""]) = some [""] := by decide

/-- Claim C9 (amended): only the comma-split fallback tier guarantees the
absence of empty strings: its output never contains one, hence neither does
the never-raising string branch of `robust_eval_list` on any string whose
structured parse fails (unbracketed, empty, `"[]"`, or a malformed literal).
A successful structured parse, or a single-element native list, can deliver
empty strings (see the counterexample). -/
theorem c9_fallback_no_empty :
    (∀ s : String, "" ∉ fallbackSplit s) ∧
    (∀ s : String, robust_eval_list (PyVal.str s) = some (robust_eval_str s)) ∧
    (∀ s : String, literalEvalList (pyStrip s) = Option.none →
        "" ∉ robust_eval_str s) := by
  have hfb : ∀ s : String, "" ∉ fallbackSplit s := by
    intro s h
    rcases List.mem_filter.mp h with ⟨_, h2⟩
    simp at h2
  refine ⟨hfb, fun s => rfl, ?_⟩
  intro s hlit
  unfold robust_eval_str
  split
  · simp
  · split
    · simp
    · split
      · rw [hlit]
        exact hfb _
      · exact hfb _

theorem c9_fallback_no_empty_witness :
    "" ∉ robust_eval_str "[broken, , thing" :=
  c9_fallback_no_empty.2.2 "[broken, , thing" (by decide)

/-! ### Claim C1: the three encodings of a keyword list -/

theorem stripChars_length_le_dropWhile (l : List Char) :
    (stripChars l).length ≤ (l.dropWhile wsChar).length := by
  unfold stripChars
  rw [List.length_reverse]
  calc ((l.dropWhile wsChar).reverse.dropWhile wsChar).length
      ≤ (l.dropWhile wsChar).reverse.length := length_dropWhile_le _ _
    _ = (l.dropWhile wsChar).length := List.length_reverse _

theorem stripFixed_noLead {l : List Char} (h : stripChars l = l) :
    l.dropWhile wsChar = l := by
  have h1 : (l.dropWhile wsChar).length ≤ l.length := length_dropWhile_le _ _
  have h2 : l.length ≤ (l.dropWhile wsChar).length := by
    have := stripChars_length_le_dropWhile l
    rw [h] at this
    exact this
  exact (List.dropWhile_suffix wsChar).sublist.eq_of_length (by omega)

theorem stripFixed_rev {l : List Char} (h : stripChars l = l) :
    l.reverse.dropWhile wsChar = l.reverse := by
  have hA : l.dropWhile wsChar = l := stripFixed_noLead h
  have hlen : (l.reverse.dropWhile wsChar).length = l.length := by
    have : stripChars l = (l.reverse.dropWhile wsChar).reverse := by
      unfold stripChars
      rw [hA]
    rw [h] at this
    have := congrArg List.length this
    simp at this
    omega
  exact (List.dropWhile_suffix wsChar).sublist.eq_of_length (by simp [hlen])

theorem cleanToken_strip {x : String} (h : CleanToken x) : stripChars x.data = x.data :=
  congrArg String.data h.2.1

theorem cleanToken_head_not_ws {x : String} {c : Char} {t : List Char}
    (h : CleanToken x) (hd : x.data = c :: t) : wsChar c = false := by
  have := stripFixed_noLead (cleanToken_strip h)
  rw [hd] at this
  exact head_not_ws_of_dropWhile_eq this

theorem cleanToken_rev_head_not_ws {x : String} {c : Char} {t : List Char}
    (h : CleanToken x) (hd : x.data.reverse = c :: t) : wsChar c = false := by
  have := stripFixed_rev (cleanToken_strip h)
  rw [hd] at this
  exact head_not_ws_of_dropWhile_eq this

theorem cleanToken_data_ne_nil {x : String} (h : CleanToken x) : x.data ≠ [] := by
  intro hx
  exact h.1 (String.ext hx)

theorem interComma_cons (x y : String) (rest : List String) :
    interComma (x :: y :: rest) = x.data ++ ',' :: ' ' :: interComma (y :: rest) := rfl

theorem interComma_append (x : String) (rest : List String) :
    ∃ R, interComma (x :: rest) = x.data ++ R := by
  cases rest with
  | nil => exact ⟨[], by simp [interComma]⟩
  | cons y ys => exact ⟨',' :: ' ' :: interComma (y :: ys), rfl⟩

theorem mem_interComma {c : Char} :
    ∀ {xs : List String}, c ∈ interComma xs → (∃ x ∈ xs, c ∈ x.data) ∨ c = ',' ∨ c = ' ' := by
  intro xs
  induction xs with
  | nil => intro h; simp [interComma] at h
  | cons x rest ih =>
    intro h
    cases rest with
    | nil =>
      simp only [interComma] at h
      exact Or.inl ⟨x, List.mem_cons_self _ _, h⟩
    | cons y ys =>
      rw [interComma_cons] at h
      rcases List.mem_append.mp h with h | h
      · exact Or.inl ⟨x, List.mem_cons_self _ _, h⟩
      · rcases List.mem_cons.mp h with rfl | h
        · exact Or.inr (Or.inl rfl)
        · rcases List.mem_cons.mp h with rfl | h
          · exact Or.inr (Or.inr rfl)
          · rcases ih h with ⟨z, hz, hcz⟩ | h
            · exact Or.inl ⟨z, List.mem_cons_of_mem _ hz, hcz⟩
            · exact Or.inr h

theorem interComma_noLead {x : String} {rest : List String} (h : CleanToken x) :
    (interComma (x :: rest)).dropWhile wsChar = interComma (x :: rest) := by
  rcases interComma_append x rest with ⟨R, hR⟩
  rcases hd : x.data with _ | ⟨c, t⟩
  · exact absurd hd (cleanToken_data_ne_nil h)
  · have hc : wsChar c = false := cleanToken_head_not_ws h hd
    rw [hR, hd, List.cons_append, List.dropWhile_cons, if_neg (by simp [hc])]

theorem dropWhile_cons_eq_self_head {p : Char → Bool} {c : Char} {t : List Char}
    (h : (c :: t).dropWhile p = c :: t) : p c = false := by
  by_contra hb
  have hc : p c = true := by revert hb; cases p c <;> simp
  rw [List.dropWhile_cons, if_pos hc] at h
  have := length_dropWhile_le p t
  have := congrArg List.length h
  simp at this
  omega

theorem dropWhile_append_of_ne {p : Char → Bool} {l r : List Char}
    (hfix : l.dropWhile p = l) (hne : l ≠ []) : (l ++ r).dropWhile p = l ++ r := by
  cases l with
  | nil => exact absurd rfl hne
  | cons c t =>
    rw [List.cons_append, List.dropWhile_cons,
      if_neg (by simp [dropWhile_cons_eq_self_head hfix])]

theorem interComma_ne_nil {y : String} {ys : List String} (h : CleanToken y) :
    interComma (y :: ys) ≠ [] := by
  rcases interComma_append y ys with ⟨R, hR⟩
  rw [hR]
  intro hnil
  exact cleanToken_data_ne_nil h (List.append_eq_nil.mp hnil).1

theorem interComma_noTrailRev :
    ∀ (xs : List String), xs ≠ [] → (∀ x ∈ xs, CleanToken x) →
      (interComma xs).reverse.dropWhile wsChar = (interComma xs).reverse := by
  intro xs
  induction xs with
  | nil => intro h; exact absurd rfl h
  | cons x rest ih =>
    intro _ hclean
    cases rest with
    | nil =>
      simp only [interComma]
      have hx := hclean x (List.mem_cons_self _ _)
      exact stripFixed_rev (cleanToken_strip hx)
    | cons y ys =>
      have hy : CleanToken y := hclean y (List.mem_cons_of_mem _ (List.mem_cons_self _ _))
      have hrec := ih (by simp) (fun z hz => hclean z (List.mem_cons_of_mem _ hz))
      have hBne : (interComma (y :: ys)).reverse ≠ [] := by
        simp [interComma_ne_nil hy]
      rw [interComma_cons, List.reverse_append]
      have hsplit : (',' :: ' ' :: interComma (y :: ys)).reverse =
          (interComma (y :: ys)).reverse ++ [' ', ','] := by simp
      rw [hsplit, List.append_assoc]
      exact dropWhile_append_of_ne hrec hBne

theorem pyStrip_commaDelimited {xs : List String} (hne : xs ≠ [])
    (hclean : ∀ x ∈ xs, CleanToken x) :
    pyStrip (commaDelimited xs) = commaDelimited xs := by
  cases xs with
  | nil => exact absurd rfl hne
  | cons x rest =>
    unfold pyStrip commaDelimited
    exact congrArg String.mk
      (stripChars_eq_self (interComma_noLead (hclean x (List.mem_cons_self _ _)))
        (interComma_noTrailRev _ (by simp) hclean))

theorem splitComma_ne_nil : ∀ l : List Char, splitComma l ≠ [] := by
  intro l
  induction l with
  | nil => simp [splitComma]
  | cons c rest ih =>
    unfold splitComma
    split
    · simp
    · rcases h : splitComma rest with _ | ⟨s, ss⟩
      · exact absurd h ih
      · simp

theorem splitComma_append_comma {l r : List Char} (h : ∀ c ∈ l, ¬c = ',') :
    splitComma (l ++ ',' :: r) = l :: splitComma r := by
  induction l with
  | nil =>
    simp only [List.nil_append]
    rw [splitComma, if_pos rfl]
  | cons c t ih =>
    rw [List.cons_append, splitComma, if_neg (h c (List.mem_cons_self _ _)),
      ih (fun d hd => h d (List.mem_cons_of_mem _ hd))]

theorem splitComma_no_comma {l : List Char} (h : ∀ c ∈ l, ¬c = ',') :
    splitComma l = [l] := by
  induction l with
  | nil => rfl
  | cons c t ih =>
    rw [splitComma, if_neg (h c (List.mem_cons_self _ _)),
      ih (fun d hd => h d (List.mem_cons_of_mem _ hd))]

theorem cleanToken_no_comma {x : String} (h : CleanToken x) : ∀ c ∈ x.data, ¬c = ',' := by
  intro c hc heq
  exact h.2.2 c hc (Or.inl heq)

theorem filter_notBQ_interComma {xs : List String} (hclean : ∀ x ∈ xs, CleanToken x) :
    (interComma xs).filter notBQ = interComma xs := by
  rw [List.filter_eq_self]
  intro c hc
  rcases mem_interComma hc with ⟨x, hx, hcx⟩ | h | h
  · have hx2 := (hclean x hx).2.2 c hcx
    unfold notBQ
    have h1 : ¬c = '[' := fun he => hx2 (Or.inr (Or.inl he))
    have h2 : ¬c = ']' := fun he => hx2 (Or.inr (Or.inr (Or.inl he)))
    have h3 : ¬c = '\'' := fun he => hx2 (Or.inr (Or.inr (Or.inr (Or.inl he))))
    have h4 : ¬c = '"' := fun he => hx2 (Or.inr (Or.inr (Or.inr (Or.inr (Or.inl he)))))
    simp [h1, h2, h3, h4]
  · subst h; rfl
  · subst h; rfl

theorem mk_data (s : String) : (⟨s.data⟩ : String) = s := by cases s; rfl

theorem fallback_interComma :
    ∀ xs : List String, (∀ x ∈ xs, CleanToken x) →
      ((splitComma (interComma xs)).map (fun p => (⟨stripChars p⟩ : String))).filter
        (fun x => x ≠ "") = xs := by
  intro xs
  induction xs with
  | nil => intro _; decide
  | cons x rest ih =>
    intro hclean
    have hx : CleanToken x := hclean x (List.mem_cons_self _ _)
    cases rest with
    | nil =>
      show ((splitComma x.data).map (fun p => (⟨stripChars p⟩ : String))).filter
        (fun x => x ≠ "") = [x]
      rw [splitComma_no_comma (cleanToken_no_comma hx)]
      simp only [List.map_cons, List.map_nil, cleanToken_strip hx, mk_data]
      rw [List.filter_cons]
      simp [hx.1]
    | cons y ys =>
      have hrest : ∀ z ∈ y :: ys, CleanToken z := fun z hz =>
        hclean z (List.mem_cons_of_mem _ hz)
      rw [interComma_cons, splitComma_append_comma (cleanToken_no_comma hx)]
      rcases hsz : splitComma (interComma (y :: ys)) with _ | ⟨s, ss⟩
      · exact absurd hsz (splitComma_ne_nil _)
      · have hsp : splitComma (' ' :: interComma (y :: ys)) = (' ' :: s) :: ss := by
          rw [splitComma, if_neg (by decide), hsz]
        rw [hsp]
        have hih := ih hrest
        rw [hsz] at hih
        simp only [List.map_cons] at hih ⊢
        rw [cleanToken_strip hx, mk_data, stripChars_cons_space]
        rw [List.filter_cons, if_pos (by simp [hx.1])]
        rw [List.filter_cons] at hih ⊢
        rw [hih]

theorem robust_commaDelimited {xs : List String} (hclean : ∀ x ∈ xs, CleanToken x) :
    robust_eval_str (commaDelimited xs) = xs := by
  cases xs with
  | nil => decide
  | cons x rest =>
    have hx : CleanToken x := hclean x (List.mem_cons_self _ _)
    have hdata : (commaDelimited (x :: rest)).data = interComma (x :: rest) := rfl
    have h0 : commaDelimited (x :: rest) ≠ "" := by
      intro h
      have := congrArg String.data h
      rw [hdata] at this
      exact interComma_ne_nil hx this
    have hstrip : pyStrip (commaDelimited (x :: rest)) = commaDelimited (x :: rest) :=
      pyStrip_commaDelimited (by simp) hclean
    have hnotmem : '[' ∉ interComma (x :: rest) := by
      intro hmem
      rcases mem_interComma hmem with ⟨z, hz, hcz⟩ | h | h
      · exact (hclean z hz).2.2 '[' hcz (Or.inr (Or.inl rfl))
      · exact absurd h (by decide)
      · exact absurd h (by decide)
    have hne2 : commaDelimited (x :: rest) ≠ "[]" := by
      intro h
      have := congrArg String.data h
      rw [hdata] at this
      exact hnotmem (this ▸ (by decide : '[' ∈ "[]".data))
    have hhead : (commaDelimited (x :: rest)).data.head? ≠ some '[' := by
      rw [hdata]
      rcases interComma_append x rest with ⟨R, hR⟩
      rcases hd : x.data with _ | ⟨c, t⟩
      · exact absurd hd (cleanToken_data_ne_nil hx)
      · rw [hR, hd, List.cons_append]
        simp only [List.head?_cons]
        intro h
        have hc : c = '[' := by simpa using h
        refine (hclean x (List.mem_cons_self _ _)).2.2 c ?_ (Or.inr (Or.inl hc))
        rw [hd]
        exact List.mem_cons_self _ _
    unfold robust_eval_str
    rw [if_neg h0, hstrip, if_neg hne2, if_neg (by simp [hhead])]
    unfold fallbackSplit
    rw [hdata, filter_notBQ_interComma hclean]
    exact fallback_interComma _ hclean

theorem quoteTok_append (x : String) (R : List Char) :
    quoteTok x ++ R = '\'' :: (x.data ++ '\'' :: R) := by
  unfold quoteTok
  simp

theorem dropWhile_ws_quoteTok (x : String) (R : List Char) :
    (quoteTok x ++ R).dropWhile wsChar = quoteTok x ++ R := by
  rw [quoteTok_append, List.dropWhile_cons, if_neg (by decide)]

theorem parseQuoted_quoteTok {x : String} (h : CleanToken x) (R : List Char) :
    parseQuoted (quoteTok x ++ R) = some (x, R) := by
  rw [quoteTok_append, parseQuoted, if_pos (Or.inl rfl)]
  have hall : ∀ c ∈ x.data, (fun c => decide ¬(c = '\'' ∨ c = '\\')) c = true := by
    intro c hc
    have := h.2.2 c hc
    simp only [decide_eq_true_eq]
    intro hor
    rcases hor with h1 | h1
    · exact this (Or.inr (Or.inr (Or.inr (Or.inl h1))))
    · exact this (Or.inr (Or.inr (Or.inr (Or.inr (Or.inr h1)))))
  rw [List.dropWhile_append_of_pos hall, List.takeWhile_append_of_pos hall]
  rw [List.dropWhile_cons, if_neg (by simp), List.takeWhile_cons, if_neg (by simp)]
  simp only []
  simp [mk_data]

theorem parseItems_cons_space (g : ℕ) (Z : List Char) :
    parseItems (g + 1) (' ' :: Z) = parseItems (g + 1) Z := by
  rw [parseItems, parseItems,
    show (' ' :: Z).dropWhile wsChar = Z.dropWhile wsChar from by
      rw [List.dropWhile_cons, if_pos (by decide)]]

theorem parseItems_serInner :
    ∀ (xs : List String), xs ≠ [] → (∀ x ∈ xs, CleanToken x) →
      ∀ fuel, xs.length ≤ fuel → parseItems fuel (serInner xs) = some xs := by
  intro xs
  induction xs with
  | nil => intro h; exact absurd rfl h
  | cons x rest ih =>
    intro _ hclean fuel hfuel
    have hx : CleanToken x := hclean x (List.mem_cons_self _ _)
    cases fuel with
    | zero => simp at hfuel
    | succ fuel =>
      cases rest with
      | nil =>
        show parseItems (fuel + 1) (quoteTok x ++ [']']) = some [x]
        rw [parseItems, dropWhile_ws_quoteTok, parseQuoted_quoteTok hx]
        simp only []
        rw [if_pos (by decide)]
      | cons y ys =>
        show parseItems (fuel + 1) (quoteTok x ++ ',' :: ' ' :: serInner (y :: ys)) =
          some (x :: y :: ys)
        rw [parseItems, dropWhile_ws_quoteTok, parseQuoted_quoteTok hx]
        simp only []
        rw [show (',' :: ' ' :: serInner (y :: ys)).dropWhile wsChar =
          ',' :: ' ' :: serInner (y :: ys) from by
            rw [List.dropWhile_cons, if_neg (by decide)]]
        rw [if_neg (by simp)]
        simp only [if_true]
        have hfg : 1 ≤ fuel := by simp at hfuel; omega
        rcases Nat.exists_eq_add_of_le hfg with ⟨g, hg⟩
        rw [hg]
        rw [show 1 + g = g + 1 from by omega]
        rw [parseItems_cons_space]
        rw [ih (by simp) (fun z hz => hclean z (List.mem_cons_of_mem _ hz)) (g + 1)
          (by simp at hfuel ⊢; omega)]

theorem serInner_concat : ∀ xs : List String, ∃ M, serInner xs = M ++ [']'] := by
  intro xs
  induction xs with
  | nil => exact ⟨[], rfl⟩
  | cons x rest ih =>
    cases rest with
    | nil => exact ⟨quoteTok x, rfl⟩
    | cons y ys =>
      rcases ih with ⟨M, hM⟩
      refine ⟨quoteTok x ++ ',' :: ' ' :: M, ?_⟩
      show quoteTok x ++ ',' :: ' ' :: serInner (y :: ys) = _
      rw [hM]
      simp

theorem serInner_length : ∀ xs : List String, xs.length ≤ (serInner xs).length := by
  intro xs
  induction xs with
  | nil => simp [serInner]
  | cons x rest ih =>
    cases rest with
    | nil =>
      show 1 ≤ (quoteTok x ++ [']']).length
      simp
    | cons y ys =>
      show (y :: ys).length + 1 ≤ (quoteTok x ++ ',' :: ' ' :: serInner (y :: ys)).length
      have : (quoteTok x).length = x.data.length + 2 := by unfold quoteTok; simp
      simp only [List.length_append, List.length_cons, this] at ih ⊢
      omega

theorem robust_serialize {xs : List String} (hclean : ∀ x ∈ xs, CleanToken x) :
    robust_eval_str (serializeListLiteral xs) = xs := by
  cases xs with
  | nil => decide
  | cons x rest =>
    have hx : CleanToken x := hclean x (List.mem_cons_self _ _)
    have hdata : (serializeListLiteral (x :: rest)).data = '[' :: serInner (x :: rest) := rfl
    rcases serInner_concat (x :: rest) with ⟨M, hM⟩
    have hshape : ∃ T, serInner (x :: rest) = '\'' :: T := by
      cases rest with
      | nil => exact ⟨x.data ++ '\'' :: [']'], by show quoteTok x ++ [']'] = _; rw [quoteTok_append]⟩
      | cons y ys =>
        exact ⟨x.data ++ '\'' :: ',' :: ' ' :: serInner (y :: ys), by
          show quoteTok x ++ ',' :: ' ' :: serInner (y :: ys) = _
          rw [quoteTok_append]⟩
    rcases hshape with ⟨T, hT⟩
    have h0 : serializeListLiteral (x :: rest) ≠ "" := by
      intro h
      have := congrArg String.data h
      rw [hdata] at this
      simp at this
    have hstrip : pyStrip (serializeListLiteral (x :: rest)) = serializeListLiteral (x :: rest) := by
      unfold pyStrip
      refine (congrArg String.mk (stripChars_eq_self ?_ ?_)).trans (mk_data _)
      · rw [hdata, List.dropWhile_cons, if_neg (by decide)]
      · rw [hdata, hM]
        rw [show '[' :: (M ++ [']']) = ('[' :: M) ++ [']'] from rfl]
        rw [List.reverse_append]
        simp only [List.reverse_cons, List.reverse_nil, List.nil_append, List.singleton_append]
        rw [List.dropWhile_cons, if_neg (by decide)]
    have hne2 : serializeListLiteral (x :: rest) ≠ "[]" := by
      intro h
      have h2 := congrArg String.data h
      rw [hdata, hT] at h2
      simp at h2
    have hhead : (serializeListLiteral (x :: rest)).data.head? = some '[' := by
      rw [hdata]; rfl
    have hlast : (serializeListLiteral (x :: rest)).data.getLast? = some ']' := by
      rw [hdata, hM]
      rw [show '[' :: (M ++ [']']) = ('[' :: M) ++ [']'] from rfl]
      exact List.getLast?_concat _
    have hlit : literalEvalList (serializeListLiteral (x :: rest)) =
        parseItems ((serInner (x :: rest)).length + 1) (serInner (x :: rest)) := by
      unfold literalEvalList
      rw [hdata]
      simp only []
      rw [hT]
      rw [show List.dropWhile wsChar ('\'' :: T) = '\'' :: T from by
        rw [List.dropWhile_cons, if_neg (by decide)]]
      rw [if_neg (by simp)]
    unfold robust_eval_str
    rw [if_neg h0, hstrip, if_neg hne2, if_pos ⟨hhead, hlast⟩, hlit]
    rw [parseItems_serInner (x :: rest) (by simp) hclean _
      (Nat.le_succ_of_le (serInner_length _))]

/-- Claim C1 counterexample: the three encodings do **not** always agree — an
empty token survives in a singleton native list but vanishes in the
comma-delimited encoding; a token with leading whitespace is trimmed only by
the comma-split heuristic; and a native list of two or more elements never
comes back at all: the `pd.isna(val) or val == ""` guard raises `ValueError`
on the multi-element boolean ndarray (modelled by `Option.none`). -/
theorem c1_counterexample :
    robust_eval_list (PyVal.list [""]) ≠
      robust_eval_list (PyVal.str (commaDelimited [""])) ∧
    robust_eval_list (PyVal.list [" a"]) ≠
      robust_eval_list (PyVal.str (commaDelimited [" a"])) ∧
    robust_eval_list (PyVal.list ["a", "b"]) = Option.none := by decide

/-- Claim C1 (amended): for lists of well-formed keyword tokens (nonempty,
stripped, free of comma/bracket/quote/backslash characters) the serialized
list literal and the comma-delimited string both parse to the logical list; a
native list is returned verbatim only when it has at most one element — with
two or more, the `pd.isna(val) or val == ""` guard raises `ValueError` on the
multi-element ndarray truth test, so the program never returns a multi-token
native list; a structured-parse failure on a bracketed string does not raise
but degrades to the comma-split heuristic; and missing, empty, and `"[]"`
inputs all give the empty sequence. -/
theorem c1_list_field_encodings :
    (∀ xs : List String, (∀ x ∈ xs, CleanToken x) →
        robust_eval_list (PyVal.str (serializeListLiteral xs)) = some xs ∧
        robust_eval_list (PyVal.str (commaDelimited xs)) = some xs) ∧
    (∀ x : String, robust_eval_list (PyVal.list [x]) = some [x]) ∧
    (∀ (x y : String) (rest : List String),
        robust_eval_list (PyVal.list (x :: y :: rest)) = Option.none) ∧
    (∀ s : String, (pyStrip s).data.head? = some '[' →
        (pyStrip s).data.getLast? = some ']' →
        literalEvalList (pyStrip s) = Option.none →
        robust_eval_list (PyVal.str s) = some (fallbackSplit (pyStrip s))) ∧
    robust_eval_list PyVal.none = some [] ∧
    robust_eval_list (PyVal.str "") = some [] ∧
    robust_eval_list (PyVal.str "[]") = some [] := by
  refine ⟨?_, fun x => rfl, fun x y rest => rfl, ?_, rfl, by decide, by decide⟩
  · intro xs hclean
    exact ⟨congrArg some (robust_serialize hclean),
      congrArg some (robust_commaDelimited hclean)⟩
  · intro s hhead hlast hlit
    refine congrArg some ?_
    unfold robust_eval_str
    split
    · rename_i hs
      subst hs
      decide
    · split
      · rename_i hs2
        rw [hs2]
        decide
      · rw [if_pos ⟨hhead, hlast⟩, hlit]

theorem c1_list_field_encodings_witness :
    robust_eval_list (PyVal.str (serializeListLiteral ["a b", "c"])) = some ["a b", "c"] ∧
    robust_eval_list (PyVal.str (commaDelimited ["a b", "c"])) = some ["a b", "c"] ∧
    robust_eval_list (PyVal.str "[broken]") = some (fallbackSplit (pyStrip "[broken]")) :=
  ⟨(c1_list_field_encodings.1 ["a b", "c"] (by decide)).1,
   (c1_list_field_encodings.1 ["a b", "c"] (by decide)).2,
   c1_list_field_encodings.2.2.2.1 "[broken]" (by decide) (by decide) (by decide)⟩
